import Mathlib

/-
Verification of the dht-embedded driver (src/lib.rs) against its
specification.  The Rust source is shallowly embedded:

* `PinState` embeds `embedded_hal::digital::PinState`.
* `DhtError` embeds `DhtError<HE>`; `Reading` embeds `Reading`, with the
  f32 fields modelled as exact rationals (every value produced by the two
  decoders is an integer divided by 10, and every comparison the driver
  performs on such values has the same outcome over the rationals as over
  IEEE f32, since 0.0 and 100.0 are exactly representable and division of
  an integer at most 65535 by 10.0 rounds to a float on the same side of
  those bounds).
* The external world (the GPIO pin and the HAL) is an oracle `Env`: the
  outcome of the k-th `is_high`/`is_low` query overall is
  `env.levels k` (the physical line level, or a hardware error), and the
  two `set_low`/`set_high` calls may fail via `setLowErr`/`setHighErr`.
  A counter `n` numbering the pin queries is threaded through the
  functions.
* Every external call is also recorded in an event trace (`Event`), so
  that ordering claims (interrupt-guard bracketing around the pin I/O)
  are statements about the trace.
-/

namespace DhtEmbedded

/-- Logic level on the data line (embeds `embedded_hal::digital::PinState`). -/
inductive PinState : Type where
  | low : PinState
  | high : PinState
deriving DecidableEq, Repr

/-- Embeds `DhtError<HE>` from src/lib.rs (lines 31-42); the two payload
bytes of `ChecksumMismatch` are u8 values modelled as naturals. -/
inductive DhtError (HE : Type) : Type where
  | notPresent : DhtError HE
  | checksumMismatch (expected calculated : Nat) : DhtError HE
  | invalidData : DhtError HE
  | timeout : DhtError HE
  | pinError (e : HE) : DhtError HE
deriving DecidableEq

/-- Embeds `Reading` (src/lib.rs lines 12-15); f32 modelled as ℚ. -/
structure Reading : Type where
  humidity : ℚ
  temperature : ℚ
deriving DecidableEq, Repr

/-- One external call made by the driver, as recorded in the trace:
the two interrupt-guard operations, the two pin writes, a busy delay of
the given number of microseconds, or one pin-level query together with
its outcome. -/
inductive Event (HE : Type) : Type where
  | disableInterrupts : Event HE
  | enableInterrupts : Event HE
  | setLow : Event HE
  | setHigh : Event HE
  | delayUs (us : Nat) : Event HE
  | pollPin (result : Except HE PinState) : Event HE

/-- Oracle for the external world: `levels k` is the outcome (hardware
error, or observed line level) of the k-th pin-level query issued by the
driver; `setLowErr` / `setHighErr` are the outcomes of the two pin
writes (`none` = success). -/
structure Env (HE : Type) : Type where
  setLowErr : Option HE
  setHighErr : Option HE
  levels : Nat → Except HE PinState

variable {HE : Type}

/-- One poll of the pin, embedding the match in `wait_for_level`
(src/lib.rs lines 182-185): for target `High` the driver calls
`is_high()`, for target `Low` it calls `is_low()`; both report whether
the physical line is at that level, or fail with the hardware error. -/
def pinQuery (env : Env HE) (level : PinState) (n : Nat) : Except HE Bool :=
  match env.levels n with
  | .error e => .error e
  | .ok actual =>
    match level with
    | .high => .ok (actual == .high)
    | .low => .ok (actual == .low)

/-- Body of the `for elapsed in 0..=timeout_us` loop of `wait_for_level`
(src/lib.rs lines 181-192), with `fuel` the number of iterations still
to run and `elapsed` the value of the loop variable at the current
iteration.  Returns the result (elapsed tick count on success, the
caller-supplied error on timeout, `pinError` on a hardware failure),
the next pin-query counter, and the trace of external calls made. -/
def waitForLevelAux (env : Env HE) (level : PinState) (onTimeout : DhtError HE)
    (elapsed : Nat) (fuel : Nat) (n : Nat) :
    Except (DhtError HE) Nat × Nat × List (Event HE) :=
  match fuel with
  | 0 => (.error onTimeout, n, [])
  | fuel + 1 =>
    match pinQuery env level n with
    | .error e => (.error (.pinError e), n + 1, [.pollPin (env.levels n)])
    | .ok isReady =>
      if isReady then
        (.ok elapsed, n + 1, [.pollPin (env.levels n)])
      else
        let rest := waitForLevelAux env level onTimeout (elapsed + 1) fuel (n + 1)
        (rest.1, rest.2.1, .pollPin (env.levels n) :: .delayUs 1 :: rest.2.2)

/-- Embeds `Dht::wait_for_level` (src/lib.rs lines 175-193): poll the
pin once per microsecond tick for `timeout_us + 1` polls (the loop runs
over `0..=timeout_us`), returning the elapsed tick count of the first
matching poll, `onTimeout` if none matches, or the propagated hardware
error.  `n` is the pin-query counter on entry. -/
def wait_for_level (env : Env HE) (level : PinState) (timeout_us : Nat)
    (onTimeout : DhtError HE) (n : Nat) :
    Except (DhtError HE) Nat × Nat × List (Event HE) :=
  waitForLevelAux env level onTimeout 0 (timeout_us + 1) n

/-- Embeds `buf[byte] |= 1 << shift` with `byte = bit / 8` and
`shift = 7 - bit % 8` (src/lib.rs lines 150-152). -/
def setBitInBuf (buf : List Nat) (bit : Nat) : List Nat :=
  buf.set (bit / 8) (buf.getD (bit / 8) 0 ||| (1 <<< (7 - bit % 8)))

/-- Embeds the 40-iteration bit sampling loop of `read_uninterruptible`
(src/lib.rs lines 142-154), generalised to `count` remaining iterations
with `bit` the current loop index: wait for high (timeout 55, error
`Timeout`), wait for low (timeout 70, error `Timeout`) measuring the
elapsed ticks, and set the bit when that took more than 30 ticks. -/
def readBitsAux (env : Env HE) (count : Nat) (bit : Nat) (n : Nat)
    (buf : List Nat) :
    Except (DhtError HE) (List Nat) × Nat × List (Event HE) :=
  match count with
  | 0 => (.ok buf, n, [])
  | c + 1 =>
    let w1 := wait_for_level env .high 55 .timeout n
    match w1.1 with
    | .error e => (.error e, w1.2.1, w1.2.2)
    | .ok _ =>
      let w2 := wait_for_level env .low 70 .timeout w1.2.1
      match w2.1 with
      | .error e => (.error e, w2.2.1, w1.2.2 ++ w2.2.2)
      | .ok elapsed =>
        let buf1 := if elapsed > 30 then setBitInBuf buf bit else buf
        let rest := readBitsAux env c (bit + 1) w2.2.1 buf1
        (rest.1, rest.2.1, w1.2.2 ++ w2.2.2 ++ rest.2.2)

/-- Embeds the checksum computation of `read_uninterruptible`
(src/lib.rs lines 156-159): fold the first four bytes into a u16
accumulator (addition modulo 2^16) and mask with 0xff; the final
`as u8` cast is exact on the masked value. -/
def computeChecksum (buf : List Nat) : Nat :=
  ((buf.take 4).foldl (fun accum next => (accum + next) % 65536) 0) &&& 0xff

/-- Embeds the checksum-check / decode / range-check tail of
`read_uninterruptible` (src/lib.rs lines 156-172), applied to the
completed 5-byte frame. -/
def processFrame (parse_data : List Nat → ℚ × ℚ) (buf : List Nat) :
    Except (DhtError HE) Reading :=
  let checksum := computeChecksum buf
  if buf.getD 4 0 = checksum then
    let hd := parse_data buf
    if ¬(0 ≤ hd.1 ∧ hd.1 ≤ 100) then
      .error .invalidData
    else
      .ok ⟨hd.1, hd.2⟩
  else
    .error (.checksumMismatch (buf.getD 4 0) checksum)

/-- Embeds `Dht::read_uninterruptible` (src/lib.rs lines 123-173):
wake pulse (set low, delay 3000), request (set high, delay 25), the two
acknowledgment waits (timeout 85, error `NotPresent`), the 40-bit
sampling loop starting from the all-zero frame, then checksum check,
decode and range check.  Returns the result together with the trace of
external calls. -/
def read_uninterruptible (env : Env HE) (parse_data : List Nat → ℚ × ℚ) :
    Except (DhtError HE) Reading × List (Event HE) :=
  match env.setLowErr with
  | some e => (.error (.pinError e), [.setLow])
  | none =>
    match env.setHighErr with
    | some e => (.error (.pinError e), [.setLow, .delayUs 3000, .setHigh])
    | none =>
      let pre : List (Event HE) := [.setLow, .delayUs 3000, .setHigh, .delayUs 25]
      let a1 := wait_for_level env .high 85 .notPresent 0
      match a1.1 with
      | .error e => (.error e, pre ++ a1.2.2)
      | .ok _ =>
        let a2 := wait_for_level env .low 85 .notPresent a1.2.1
        match a2.1 with
        | .error e => (.error e, pre ++ a1.2.2 ++ a2.2.2)
        | .ok _ =>
          let rb := readBitsAux env 40 0 a2.2.1 [0, 0, 0, 0, 0]
          match rb.1 with
          | .error e => (.error e, pre ++ a1.2.2 ++ a2.2.2 ++ rb.2.2)
          | .ok buf =>
            (processFrame parse_data buf, pre ++ a1.2.2 ++ a2.2.2 ++ rb.2.2)

/-- Embeds `Dht::read` (src/lib.rs lines 116-121): disable interrupts,
run the uninterruptible protocol, re-enable interrupts, return the
protocol result. -/
def read (env : Env HE) (parse_data : List Nat → ℚ × ℚ) :
    Except (DhtError HE) Reading × List (Event HE) :=
  let r := read_uninterruptible env parse_data
  (r.1, .disableInterrupts :: (r.2 ++ [.enableInterrupts]))

/-- No poll strictly before the k-th (counting from counter value n)
observes the target level: each returns some other level without error. -/
def noMatchBelow (env : Env HE) (level : PinState) (n k : Nat) : Prop :=
  ∀ j, j < k → ∃ l, env.levels (n + j) = Except.ok l ∧ l ≠ level

/-- Trace left by k consecutive unsuccessful polls starting at query
counter n: each poll is followed by the 1-microsecond delay. -/
def pollEvents (env : Env HE) (n : Nat) : Nat → List (Event HE)
  | 0 => []
  | k + 1 => .pollPin (env.levels n) :: .delayUs 1 :: pollEvents env (n + 1) k

namespace Dht11

/-- Embeds `Dht11::parse_data` (src/lib.rs lines 215-217): humidity is
byte 0, temperature is byte 2, both cast to float. -/
def parse_data (buf : List Nat) : ℚ × ℚ :=
  ((buf.getD 0 0 : ℚ), (buf.getD 2 0 : ℚ))

end Dht11

namespace Dht22

/-- Embeds `Dht22::parse_data` (src/lib.rs lines 247-254): humidity is
the 16-bit value of bytes 0 and 1 in tenths, temperature the 15-bit
magnitude of bytes 2 and 3 in tenths, negated when the top bit of
byte 2 is set. -/
def parse_data (buf : List Nat) : ℚ × ℚ :=
  let humidity : ℚ := ((((buf.getD 0 0) <<< 8) ||| buf.getD 1 0 : Nat) : ℚ) / 10
  let magnitude : ℚ :=
    (((((buf.getD 2 0) &&& 0x7f) <<< 8) ||| buf.getD 3 0 : Nat) : ℚ) / 10
  let temperature : ℚ :=
    if (buf.getD 2 0) &&& 0x80 ≠ 0 then -magnitude else magnitude
  (humidity, temperature)

end Dht22

/-
Helper lemmas.
-/

lemma pinQuery_ok_of_match (env : Env HE) (level : PinState) (n : Nat)
    (h : env.levels n = .ok level) : pinQuery env level n = .ok true := by
  cases level <;> simp [pinQuery, h]

lemma pinQuery_ok_of_no_match (env : Env HE) (level l : PinState) (n : Nat)
    (h : env.levels n = .ok l) (hne : l ≠ level) :
    pinQuery env level n = .ok false := by
  cases level <;> cases l <;> simp_all [pinQuery]

lemma waitForLevelAux_ok (env : Env HE) (level : PinState)
    (onTimeout : DhtError HE) (k : Nat) :
    ∀ (fuel elapsed n : Nat), k < fuel →
    noMatchBelow env level n k → env.levels (n + k) = .ok level →
    waitForLevelAux env level onTimeout elapsed fuel n =
      (.ok (elapsed + k), n + k + 1,
        pollEvents env n k ++ [.pollPin (env.levels (n + k))]) := by
  induction k with
  | zero =>
    intro fuel elapsed n hk _ hmatch
    match fuel, hk with
    | fuel + 1, _ =>
      rw [Nat.add_zero] at hmatch
      simp [waitForLevelAux, pinQuery_ok_of_match env level n hmatch,
        pollEvents, hmatch]
  | succ k ih =>
    intro fuel elapsed n hk hbelow hmatch
    match fuel, hk with
    | fuel + 1, hk =>
      obtain ⟨l, hl, hlne⟩ := hbelow 0 (Nat.succ_pos k)
      rw [Nat.add_zero] at hl
      have hrec := ih fuel (elapsed + 1) (n + 1) (Nat.lt_of_succ_lt_succ hk)
        (fun j hj => by
          have := hbelow (j + 1) (Nat.succ_lt_succ hj)
          rwa [show n + (j + 1) = n + 1 + j by omega] at this)
        (by rwa [show n + (k + 1) = n + 1 + k by omega] at hmatch)
      have e1 : n + 1 + k = n + (k + 1) := by omega
      have e2 : elapsed + 1 + k = elapsed + (k + 1) := by omega
      simp only [waitForLevelAux, pinQuery_ok_of_no_match env level l n hl hlne,
        hrec, pollEvents, e1, e2, List.cons_append]
      simp

lemma waitForLevelAux_timeout (env : Env HE) (level : PinState)
    (onTimeout : DhtError HE) (fuel : Nat) :
    ∀ (elapsed n : Nat),
    (∀ j, j < fuel → ∃ l, env.levels (n + j) = Except.ok l ∧ l ≠ level) →
    waitForLevelAux env level onTimeout elapsed fuel n =
      (.error onTimeout, n + fuel, pollEvents env n fuel) := by
  induction fuel with
  | zero => intro elapsed n _; simp [waitForLevelAux, pollEvents]
  | succ fuel ih =>
    intro elapsed n hall
    obtain ⟨l, hl, hlne⟩ := hall 0 (Nat.succ_pos fuel)
    rw [Nat.add_zero] at hl
    have hrec := ih (elapsed + 1) (n + 1)
      (fun j hj => by
        have := hall (j + 1) (Nat.succ_lt_succ hj)
        rwa [show n + (j + 1) = n + 1 + j by omega] at this)
    have e1 : n + 1 + fuel = n + (fuel + 1) := by omega
    simp only [waitForLevelAux, pinQuery_ok_of_no_match env level l n hl hlne,
      hrec, pollEvents, e1, List.cons_append]
    simp

lemma waitForLevelAux_pinError (env : Env HE) (level : PinState)
    (onTimeout : DhtError HE) (e : HE) (k : Nat) :
    ∀ (fuel elapsed n : Nat), k < fuel →
    noMatchBelow env level n k → env.levels (n + k) = .error e →
    waitForLevelAux env level onTimeout elapsed fuel n =
      (.error (.pinError e), n + k + 1,
        pollEvents env n k ++ [.pollPin (env.levels (n + k))]) := by
  induction k with
  | zero =>
    intro fuel elapsed n hk _ herr
    match fuel, hk with
    | fuel + 1, _ =>
      rw [Nat.add_zero] at herr
      simp [waitForLevelAux, pinQuery, herr, pollEvents]
  | succ k ih =>
    intro fuel elapsed n hk hbelow herr
    match fuel, hk with
    | fuel + 1, hk =>
      obtain ⟨l, hl, hlne⟩ := hbelow 0 (Nat.succ_pos k)
      rw [Nat.add_zero] at hl
      have hrec := ih fuel (elapsed + 1) (n + 1) (Nat.lt_of_succ_lt_succ hk)
        (fun j hj => by
          have := hbelow (j + 1) (Nat.succ_lt_succ hj)
          rwa [show n + (j + 1) = n + 1 + j by omega] at this)
        (by rwa [show n + (k + 1) = n + 1 + k by omega] at herr)
      have e1 : n + 1 + k = n + (k + 1) := by omega
      simp only [waitForLevelAux, pinQuery_ok_of_no_match env level l n hl hlne,
        hrec, pollEvents, e1, List.cons_append]
      simp

/-- Abstract description of what the sampling loop stores: starting from
`buf`, for each of `count` bits (the i-th having loop index `bit + i` and
measured low-transition time `E i`) set the bit exactly when `E i`
exceeds 30. -/
def storeBits (buf : List Nat) (bit : Nat) (E : Nat → Nat) : Nat → List Nat
  | 0 => buf
  | c + 1 =>
    storeBits (if E 0 > 30 then setBitInBuf buf bit else buf) (bit + 1)
      (fun i => E (i + 1)) c

lemma readBitsAux_spec (env : Env HE) :
    ∀ (count bit : Nat) (buf : List Nat) (H M E N : Nat → Nat),
    (∀ i, i < count →
      (wait_for_level env .high 55 .timeout (N i)).1 = .ok (H i) ∧
      (wait_for_level env .high 55 .timeout (N i)).2.1 = M i ∧
      (wait_for_level env .low 70 .timeout (M i)).1 = .ok (E i) ∧
      (wait_for_level env .low 70 .timeout (M i)).2.1 = N (i + 1)) →
    (readBitsAux env count bit (N 0) buf).1 = .ok (storeBits buf bit E count) ∧
    (readBitsAux env count bit (N 0) buf).2.1 = N count := by
  intro count
  induction count with
  | zero => intro bit buf H M E N _; simp [readBitsAux, storeBits]
  | succ c ih =>
    intro bit buf H M E N h
    obtain ⟨h1, h2, h3, h4⟩ := h 0 (Nat.succ_pos c)
    have hrec := ih (bit + 1) (if E 0 > 30 then setBitInBuf buf bit else buf)
      (fun i => H (i + 1)) (fun i => M (i + 1)) (fun i => E (i + 1))
      (fun i => N (i + 1)) (fun i hi => h (i + 1) (by omega))
    simp only [readBitsAux, h1, h2, h3, h4, storeBits]
    simp only at hrec
    exact hrec

/-- CLAIM C2: in the 40-iteration bit-sampling loop, each bit waits for
high with timeout 55, then for low with timeout 70 measuring the elapsed
ticks, records a 1 exactly when the elapsed ticks exceed 30, and stores a
1-bit at byte index `bit / 8` with left shift `7 - bit % 8` (MSB-first):
whenever the waits of iterations `i < count` return `Ok` with measured
low-transition times `E i` and query counters `N i` / `M i`, the loop
returns the frame obtained from `buf` by `storeBits` (which sets bit
`bit + i` iff `E i > 30`), and `setBitInBuf` is exactly the MSB-first
update. -/
theorem claim_C2 (env : Env HE) (count bit n : Nat) (buf : List Nat)
    (H M E N : Nat → Nat) :
    N 0 = n →
    (∀ i, i < count →
      (wait_for_level env .high 55 .timeout (N i)).1 = .ok (H i) ∧
      (wait_for_level env .high 55 .timeout (N i)).2.1 = M i ∧
      (wait_for_level env .low 70 .timeout (M i)).1 = .ok (E i) ∧
      (wait_for_level env .low 70 .timeout (M i)).2.1 = N (i + 1)) →
    (readBitsAux env count bit n buf).1 = .ok (storeBits buf bit E count) ∧
    (readBitsAux env count bit n buf).2.1 = N count ∧
    ∀ (b : List Nat) (j : Nat),
      setBitInBuf b j = b.set (j / 8) (b.getD (j / 8) 0 ||| 2 ^ (7 - j % 8)) := by
  intro hn h
  subst hn
  obtain ⟨hbuf, hctr⟩ := readBitsAux_spec env count bit buf H M E N h
  exact ⟨hbuf, hctr, fun b j => by simp [setBitInBuf, Nat.shiftLeft_eq]⟩

/-- Concrete environment for the C2 witness: the line is high for the
first 33 polls and low afterwards. -/
def envW2 : Env Unit :=
  ⟨none, none, fun n => if n ≤ 32 then .ok .high else .ok .low⟩

/-- Witness for C2: with `envW2` the first bit sees high immediately, the
low transition takes 32 > 30 ticks, and the loop stores the MSB of byte
0, producing frame [128, 0, 0, 0, 0] with final query counter 34. -/
theorem claim_C2_witness :
    (@readBitsAux Unit envW2 1 0 0 [0, 0, 0, 0, 0]).1 =
      .ok [128, 0, 0, 0, 0] ∧
    (@readBitsAux Unit envW2 1 0 0 [0, 0, 0, 0, 0]).2.1 = 34 := by
  have h := @claim_C2 Unit envW2 1 0 0 [0, 0, 0, 0, 0]
    (fun _ => 0) (fun _ => 1) (fun _ => 32) (fun i => if i = 0 then 0 else 34)
    rfl
    (fun i hi => by
      interval_cases i
      exact ⟨rfl, rfl, rfl, rfl⟩)
  exact ⟨by rw [h.1]; rfl, by rw [h.2.1]; rfl⟩

/-- CLAIM C5: the level-wait primitive returns `Ok k` where `k` is the
0-indexed number of the first poll observing the target level, provided
`k` does not exceed the timeout `t`, with the polls separated by
1-microsecond delays (visible in `pollEvents`); if none of the polls
`0..t` matches it returns the caller-supplied error; and a hardware
error on a poll propagates immediately as `pinError`, aborting the
wait. -/
theorem claim_C5 (env : Env HE) (level : PinState) (t : Nat)
    (onTimeout : DhtError HE) (n k : Nat) :
    (k ≤ t → noMatchBelow env level n k → env.levels (n + k) = .ok level →
      wait_for_level env level t onTimeout n =
        (.ok k, n + k + 1,
          pollEvents env n k ++ [.pollPin (env.levels (n + k))])) ∧
    ((∀ j, j ≤ t → ∃ l, env.levels (n + j) = Except.ok l ∧ l ≠ level) →
      wait_for_level env level t onTimeout n =
        (.error onTimeout, n + (t + 1), pollEvents env n (t + 1))) ∧
    (∀ e : HE, k ≤ t → noMatchBelow env level n k →
      env.levels (n + k) = .error e →
      wait_for_level env level t onTimeout n =
        (.error (.pinError e), n + k + 1,
          pollEvents env n k ++ [.pollPin (env.levels (n + k))])) := by
  refine ⟨fun hk h1 h2 => ?_, fun hall => ?_, fun e hk h1 h2 => ?_⟩
  · simpa [wait_for_level] using
      waitForLevelAux_ok env level onTimeout k (t + 1) 0 n (by omega) h1 h2
  · exact waitForLevelAux_timeout env level onTimeout (t + 1) 0 n
      (fun j hj => hall j (by omega))
  · simpa [wait_for_level] using
      waitForLevelAux_pinError env level onTimeout e k (t + 1) 0 n (by omega) h1 h2

/-- Concrete environment for the C5 witness: two polls see low, the
third sees high. -/
def envW5 : Env Unit :=
  ⟨none, none, fun n =>
    ([.ok .low, .ok .low, .ok .high] : List (Except Unit PinState)).getD n
      (.ok .low)⟩

/-- Witness for C5: under `envW5` a wait for high with timeout 5 returns
elapsed count 2 (the first matching poll, 0-indexed). -/
theorem claim_C5_witness :
    (@wait_for_level Unit envW5 .high 5 DhtError.timeout 0).1 =
      Except.ok 2 := by
  have h := (@claim_C5 Unit envW5 .high 5 .timeout 0 2).1 (by omega)
    (fun j hj => by interval_cases j <;> exact ⟨.low, rfl, by decide⟩) rfl
  rw [h]

lemma shiftLeft_lor_eq_add (n : Nat) :
    ∀ a b : Nat, b < 2 ^ n → a <<< n ||| b = 2 ^ n * a + b := by
  induction n with
  | zero =>
    intro a b hb
    norm_num at hb
    subst hb
    simp [Nat.shiftLeft_zero]
  | succ n ih =>
    intro a b hb
    have hdiv : (a <<< (n + 1)) / 2 = a <<< n := by
      rw [Nat.shiftLeft_eq, Nat.shiftLeft_eq, pow_succ, ← Nat.mul_assoc]
      exact Nat.mul_div_cancel _ (by omega)
    have hmod : (a <<< (n + 1)) % 2 = 0 := by
      rw [Nat.shiftLeft_eq, pow_succ, ← Nat.mul_assoc]
      simp [Nat.mul_mod_left]
    have hbdiv : b / 2 < 2 ^ n := by
      rw [pow_succ] at hb
      omega
    have hx : (a <<< (n + 1) ||| b) / 2 = 2 ^ n * a + b / 2 := by
      rw [Nat.or_div_two, hdiv]
      exact ih a (b / 2) hbdiv
    have hor := Nat.or_mod_two_eq_one (a := a <<< (n + 1)) (b := b)
    have hx2 : (a <<< (n + 1) ||| b) % 2 = b % 2 := by
      rcases Nat.mod_two_eq_zero_or_one b with h | h
      · rw [h]
        by_contra hne
        have h1 : (a <<< (n + 1) ||| b) % 2 = 1 := by omega
        rcases hor.mp h1 with hq | hq <;> omega
      · rw [h]
        exact hor.mpr (Or.inr h)
    have hfin := Nat.div_add_mod (a <<< (n + 1) ||| b) 2
    have hb2 := Nat.div_add_mod b 2
    have key : a <<< (n + 1) ||| b = 2 * (2 ^ n * a) + b := by
      set x := a <<< (n + 1) ||| b with hxdef
      set q := (2 ^ n * a : Nat) with hq
      omega
    rw [key, pow_succ]
    ring

lemma lor_shift8 (a b : Nat) (hb : b < 256) : a <<< 8 ||| b = 256 * a + b := by
  have h := shiftLeft_lor_eq_add 8 a b (by norm_num; omega)
  norm_num at h
  exact h

lemma and_127_eq_mod (x : Nat) : x &&& 127 = x % 128 := by
  have h := Nat.and_pow_two_sub_one_eq_mod x 7
  norm_num at h
  exact h

set_option maxRecDepth 8192 in
lemma and_128_ne_zero : ∀ x, x < 256 → (x &&& 128 ≠ 0 ↔ 128 ≤ x) := by decide

lemma computeChecksum_eq (b0 b1 b2 b3 b4 : Nat)
    (h0 : b0 < 256) (h1 : b1 < 256) (h2 : b2 < 256) (h3 : b3 < 256) :
    computeChecksum [b0, b1, b2, b3, b4] = (b0 + b1 + b2 + b3) % 256 := by
  have hfold : (([b0, b1, b2, b3, b4] : List Nat).take 4).foldl
      (fun accum next => (accum + next) % 65536) 0 = b0 + b1 + b2 + b3 := by
    simp only [List.take, List.foldl]
    omega
  rw [computeChecksum, hfold]
  rw [show (0xff : Nat) = 2 ^ 8 - 1 by norm_num, Nat.and_pow_two_sub_one_eq_mod]

lemma dht22_parse_eq (b0 b1 b2 b3 b4 : Nat)
    (hb1 : b1 < 256) (hb2 : b2 < 256) (hb3 : b3 < 256) :
    Dht22.parse_data [b0, b1, b2, b3, b4] =
      (((256 * b0 + b1 : Nat) : ℚ) / 10,
        if 128 ≤ b2 then -(((256 * (b2 % 128) + b3 : Nat) : ℚ) / 10)
        else ((256 * (b2 % 128) + b3 : Nat) : ℚ) / 10) := by
  simp only [Dht22.parse_data, List.getD_cons_zero, List.getD_cons_succ]
  rw [lor_shift8 b0 b1 hb1, and_127_eq_mod, lor_shift8 (b2 % 128) b3 hb3]
  by_cases hc : 128 ≤ b2
  · rw [if_pos ((and_128_ne_zero b2 hb2).mpr hc), if_pos hc]
  · rw [if_neg (fun h => hc ((and_128_ne_zero b2 hb2).mp h)), if_neg hc]

/-- CLAIM C4: the DHT22 decoder maps a frame to
humidity = ((byte0 shifted left 8) or byte1) / 10 and, in sign-magnitude
form, temperature = ((byte2 masked to 7 bits) shifted left 8 or byte3)
divided by 10 and negated exactly when the top bit of byte2 is set; the
frame [0x02, 0x58, 0x01, 0x0A, 0x65] decodes to (60, 26.6), and with
temperature bytes 0x81, 0x0A the temperature is -26.6. -/
theorem claim_C4 (b0 b1 b2 b3 b4 : Nat)
    (hb1 : b1 < 256) (hb2 : b2 < 256) (hb3 : b3 < 256) :
    Dht22.parse_data [b0, b1, b2, b3, b4] =
      (((256 * b0 + b1 : Nat) : ℚ) / 10,
        if 128 ≤ b2 then -(((256 * (b2 % 128) + b3 : Nat) : ℚ) / 10)
        else ((256 * (b2 % 128) + b3 : Nat) : ℚ) / 10) ∧
    Dht22.parse_data [0x02, 0x58, 0x01, 0x0A, 0x65] = (60, 133 / 5) ∧
    (Dht22.parse_data [0x02, 0x58, 0x81, 0x0A, 0x65]).2 = -(133 / 5) := by
  refine ⟨dht22_parse_eq b0 b1 b2 b3 b4 hb1 hb2 hb3, ?_, ?_⟩
  · rw [dht22_parse_eq 2 88 1 10 101 (by omega) (by omega) (by omega)]
    norm_num
  · rw [dht22_parse_eq 2 88 129 10 101 (by omega) (by omega) (by omega)]
    norm_num

/-- CLAIM C8: the DHT11 decoder maps a frame to humidity = byte 0 and
temperature = byte 2 as integer-valued floats, with bytes 1 and 3 having
no effect (they are universally quantified and absent from the result);
frame [45, 0, 26, 0, 71] decodes to (45, 26). -/
theorem claim_C8 (b0 b1 b2 b3 b4 : Nat) :
    Dht11.parse_data [b0, b1, b2, b3, b4] = ((b0 : ℚ), (b2 : ℚ)) ∧
    Dht11.parse_data [45, 0, 26, 0, 71] = (45, 26) := by
  exact ⟨rfl, by norm_num [Dht11.parse_data]⟩

lemma processFrame_checksum_fail (parse : List Nat → ℚ × ℚ) (buf : List Nat)
    (hc : buf.getD 4 0 ≠ computeChecksum buf) :
    @processFrame HE parse buf =
      .error (.checksumMismatch (buf.getD 4 0) (computeChecksum buf)) := by
  simp only [processFrame]
  rw [if_neg hc]

lemma processFrame_invalid (parse : List Nat → ℚ × ℚ) (buf : List Nat)
    (hc : buf.getD 4 0 = computeChecksum buf)
    (hr : ¬(0 ≤ (parse buf).1 ∧ (parse buf).1 ≤ 100)) :
    @processFrame HE parse buf = .error .invalidData := by
  simp only [processFrame]
  rw [if_pos hc, if_pos hr]

lemma processFrame_ok (parse : List Nat → ℚ × ℚ) (buf : List Nat)
    (hc : buf.getD 4 0 = computeChecksum buf)
    (hr : 0 ≤ (parse buf).1 ∧ (parse buf).1 ≤ 100) :
    @processFrame HE parse buf =
      .ok ⟨(parse buf).1, (parse buf).2⟩ := by
  simp only [processFrame]
  rw [if_pos hc, if_neg (not_not_intro hr)]

lemma processFrame_ok_iff (parse : List Nat → ℚ × ℚ) (buf : List Nat) :
    (∃ r, @processFrame HE parse buf = .ok r) ↔
      (buf.getD 4 0 = computeChecksum buf ∧
        0 ≤ (parse buf).1 ∧ (parse buf).1 ≤ 100) := by
  constructor
  · rintro ⟨r, hr⟩
    by_cases hc : buf.getD 4 0 = computeChecksum buf
    · by_cases hrange : 0 ≤ (parse buf).1 ∧ (parse buf).1 ≤ 100
      · exact ⟨hc, hrange⟩
      · rw [processFrame_invalid parse buf hc hrange] at hr
        simp at hr
    · rw [processFrame_checksum_fail parse buf hc] at hr
      simp at hr
  · rintro ⟨hc, hrange⟩
    exact ⟨_, processFrame_ok parse buf hc hrange⟩

lemma read_uninterruptible_ok_frame (env : Env HE) (parse : List Nat → ℚ × ℚ)
    (r : Reading) (h : (read_uninterruptible env parse).1 = .ok r) :
    ∃ fr, (read_uninterruptible env parse).1 = processFrame parse fr := by
  unfold read_uninterruptible at h ⊢
  cases hsl : env.setLowErr with
  | some e => simp [hsl] at h
  | none =>
    simp only [hsl] at h ⊢
    cases hsh : env.setHighErr with
    | some e => simp [hsh] at h
    | none =>
      simp only [hsh] at h ⊢
      cases ha1 : (wait_for_level env .high 85 .notPresent 0).1 with
      | error e => simp [ha1] at h
      | ok e1 =>
        simp only [ha1] at h ⊢
        cases ha2 : (wait_for_level env .low 85 .notPresent
            (wait_for_level env .high 85 .notPresent 0).2.1).1 with
        | error e => simp [ha2] at h
        | ok e2 =>
          simp only [ha2] at h ⊢
          cases hrb : (readBitsAux env 40 0
              (wait_for_level env .low 85 .notPresent
                (wait_for_level env .high 85 .notPresent 0).2.1).2.1
              [0, 0, 0, 0, 0]).1 with
          | error e => simp [hrb] at h
          | ok fr => exact ⟨fr, by simp [hrb]⟩

/-- CLAIM C1: for a completed 5-byte frame, the frame-processing stage
returns an `ok` Reading if and only if byte 4 equals the checksum of
bytes 0-3 and the decoded humidity lies in [0, 100] (boundaries
included); a checksum-valid frame with humidity above 100 yields
`invalidData`; and whenever the full protocol returns an `ok` Reading it
was produced by that stage from a frame satisfying both conditions. -/
theorem claim_C1 (parse : List Nat → ℚ × ℚ) (buf : List Nat) :
    ((∃ r, @processFrame HE parse buf = .ok r) ↔
      (buf.getD 4 0 = computeChecksum buf ∧
        0 ≤ (parse buf).1 ∧ (parse buf).1 ≤ 100)) ∧
    (∀ b0 b1 b2 b3 b4 : Nat, b0 < 256 → b1 < 256 → b2 < 256 → b3 < 256 →
      ((([b0, b1, b2, b3, b4] : List Nat).getD 4 0 =
          computeChecksum [b0, b1, b2, b3, b4]) ↔
        b4 = (b0 + b1 + b2 + b3) % 256)) ∧
    (buf.getD 4 0 = computeChecksum buf → (parse buf).1 > 100 →
      @processFrame HE parse buf = .error .invalidData) ∧
    (∀ (env : Env HE) (r : Reading),
      (read env parse).1 = .ok r →
      ∃ fr, (read env parse).1 = processFrame parse fr ∧
        fr.getD 4 0 = computeChecksum fr ∧ 0 ≤ (parse fr).1 ∧
        (parse fr).1 ≤ 100 ∧ r = ⟨(parse fr).1, (parse fr).2⟩) := by
  refine ⟨processFrame_ok_iff parse buf,
    fun b0 b1 b2 b3 b4 h0 h1 h2 h3 => ?_, fun hc hgt => ?_, fun env r h => ?_⟩
  · rw [computeChecksum_eq b0 b1 b2 b3 b4 h0 h1 h2 h3]
    simp [List.getD_cons_succ, List.getD_cons_zero]
  · have hnot : ¬(0 ≤ (parse buf).1 ∧ (parse buf).1 ≤ 100) :=
      fun hr => absurd hr.2 (not_le.mpr hgt)
    exact processFrame_invalid parse buf hc hnot
  · have h9 : (read_uninterruptible env parse).1 = .ok r := h
    obtain ⟨fr, hfr⟩ := read_uninterruptible_ok_frame env parse r h9
    rw [hfr] at h9
    have hex : ∃ r, @processFrame HE parse fr = .ok r := ⟨r, h9⟩
    obtain ⟨hc, h0, h100⟩ := (processFrame_ok_iff parse fr).mp hex
    refine ⟨fr, hfr, hc, h0, h100, ?_⟩
    rw [processFrame_ok parse fr hc ⟨h0, h100⟩] at h9
    exact ((Except.ok.injEq _ _).mp h9).symm

/-- Witness for C1: the checksum-valid DHT22 frame
[2, 88, 1, 10, 101] with in-range humidity 60 is accepted. -/
theorem claim_C1_witness :
    ∃ r, @processFrame Unit Dht22.parse_data [2, 88, 1, 10, 101] =
      .ok r := by
  refine (@claim_C1 Unit Dht22.parse_data [2, 88, 1, 10, 101]).1.mpr
    ⟨?_, ?_, ?_⟩
  · simp [computeChecksum_eq 2 88 1 10 101 (by omega) (by omega) (by omega)
      (by omega)]
  · rw [dht22_parse_eq 2 88 1 10 101 (by omega) (by omega) (by omega)]
    norm_num
  · rw [dht22_parse_eq 2 88 1 10 101 (by omega) (by omega) (by omega)]
    norm_num

/-- CLAIM C3: a completed frame whose byte 4 differs from the modular
sum of bytes 0-3 is rejected with `checksumMismatch (transmitted,
computed)` in that argument order, with `computed` exactly the modular
sum; the decoder is never consulted (the result is the same for every
decoder `parse`). -/
theorem claim_C3 (parse : List Nat → ℚ × ℚ) (b0 b1 b2 b3 b4 : Nat)
    (h0 : b0 < 256) (h1 : b1 < 256) (h2 : b2 < 256) (h3 : b3 < 256)
    (hne : b4 ≠ (b0 + b1 + b2 + b3) % 256) :
    @processFrame HE parse [b0, b1, b2, b3, b4] =
      .error (.checksumMismatch b4 ((b0 + b1 + b2 + b3) % 256)) := by
  have hc := computeChecksum_eq b0 b1 b2 b3 b4 h0 h1 h2 h3
  simp only [processFrame, hc, List.getD_cons_succ, List.getD_cons_zero]
  rw [if_neg hne]

/-- Witness for C3: frame [2, 88, 1, 10, 100] transmits checksum byte
100 but the computed modular sum is 101, so the result is
`checksumMismatch 100 101` regardless of the decoder. -/
theorem claim_C3_witness :
    @processFrame Unit Dht22.parse_data [2, 88, 1, 10, 100] =
      .error (.checksumMismatch 100 101) := by
  have h := @claim_C3 Unit Dht22.parse_data 2 88 1 10 100
    (by omega) (by omega) (by omega) (by omega) (by norm_num)
  simpa using h

/-- CLAIM C9: for a checksum-valid frame the post-decode validation
inspects only the humidity: the result is `invalidData` exactly when the
decoded humidity is outside [0, 100], replacing the decoded temperature
by any value whatsoever does not change acceptance, and the DHT22 frame
[0, 0, 127, 255, 126] decoding to temperature 3276.7 is accepted since
its humidity (0) is in range. -/
theorem claim_C9 (parse : List Nat → ℚ × ℚ) (buf : List Nat) :
    (buf.getD 4 0 = computeChecksum buf →
      ((@processFrame HE parse buf = .error .invalidData ↔
        ¬(0 ≤ (parse buf).1 ∧ (parse buf).1 ≤ 100)) ∧
      (∀ q : ℚ,
        ((∃ r, @processFrame HE (fun b => ((parse b).1, q)) buf = .ok r) ↔
          (∃ r, @processFrame HE parse buf = .ok r))))) ∧
    @processFrame Unit Dht22.parse_data [0, 0, 127, 255, 126] =
      .ok ⟨0, 32767 / 10⟩ := by
  constructor
  · intro hc
    constructor
    · constructor
      · intro h hrange
        rw [processFrame_ok parse buf hc hrange] at h
        simp at h
      · exact fun hrange => processFrame_invalid parse buf hc hrange
    · intro q
      rw [processFrame_ok_iff, processFrame_ok_iff]
  · have hc9 : (([0, 0, 127, 255, 126] : List Nat).getD 4 0) =
        computeChecksum [0, 0, 127, 255, 126] := by
      rw [computeChecksum_eq 0 0 127 255 126 (by omega) (by omega) (by omega)
        (by omega)]
      rfl
    have hrange : 0 ≤ (Dht22.parse_data [0, 0, 127, 255, 126]).1 ∧
        (Dht22.parse_data [0, 0, 127, 255, 126]).1 ≤ 100 := by
      rw [dht22_parse_eq 0 0 127 255 126 (by omega) (by omega) (by omega)]
      norm_num
    rw [processFrame_ok Dht22.parse_data _ hc9 hrange]
    rw [dht22_parse_eq 0 0 127 255 126 (by omega) (by omega) (by omega)]
    norm_num

/-- Witness for C9: the accepted frame of the concrete conjunct is not
rejected as `invalidData`, via the iff of the first conjunct. -/
theorem claim_C9_witness :
    ¬(@processFrame Unit Dht22.parse_data [0, 0, 127, 255, 126] =
      .error .invalidData) := by
  have hc : (([0, 0, 127, 255, 126] : List Nat).getD 4 0) =
      computeChecksum [0, 0, 127, 255, 126] := by
    rw [computeChecksum_eq 0 0 127 255 126 (by omega) (by omega) (by omega)
      (by omega)]
    rfl
  have h := ((@claim_C9 Unit Dht22.parse_data
    [0, 0, 127, 255, 126]).1 hc).1
  rw [h]
  rw [dht22_parse_eq 0 0 127 255 126 (by omega) (by omega) (by omega)]
  norm_num

/-- CLAIM C10: the checksum accumulation over bytes 0-3 of a frame of
u8 values never wraps in its 16-bit accumulator (the sum is at most
1020, so the modulo-65536 folds are the plain sum), and the computed
checksum byte is exactly the sum of bytes 0-3 modulo 256. -/
theorem claim_C10 (b0 b1 b2 b3 b4 : Nat)
    (h0 : b0 < 256) (h1 : b1 < 256) (h2 : b2 < 256) (h3 : b3 < 256) :
    (([b0, b1, b2, b3, b4] : List Nat).take 4).foldl
        (fun accum next => (accum + next) % 65536) 0 = b0 + b1 + b2 + b3 ∧
    b0 + b1 + b2 + b3 ≤ 1020 ∧
    computeChecksum [b0, b1, b2, b3, b4] = (b0 + b1 + b2 + b3) % 256 := by
  refine ⟨?_, by omega, computeChecksum_eq b0 b1 b2 b3 b4 h0 h1 h2 h3⟩
  simp only [List.take, List.foldl]
  omega

/-- Witness for C10: at the maximal frame bytes 255, 255, 255, 255 the
sum is 1020 (no 16-bit overflow) and the checksum byte is 252. -/
theorem claim_C10_witness :
    computeChecksum [255, 255, 255, 255, 0] = 252 ∧
    (255 + 255 + 255 + 255 : Nat) ≤ 1020 := by
  have h := claim_C10 255 255 255 255 0 (by omega) (by omega) (by omega)
    (by omega)
  exact ⟨by rw [h.2.2], h.2.1⟩

/-- Witness for C4: the concrete DHT22 example frame decodes to
humidity 60 and temperature 26.6 (= 133/5). -/
theorem claim_C4_witness :
    Dht22.parse_data [2, 88, 1, 10, 101] = (60, 133 / 5) :=
  (claim_C4 2 88 1 10 101 (by omega) (by omega) (by omega)).2.1

/-- CLAIM C6: failure classification is phase-dependent.  If either
acknowledgment wait (timeout 85) fails with its `notPresent` error the
whole read returns `notPresent`; if the sampling loop fails with
`timeout` the whole read returns `timeout`; and within any iteration of
the sampling loop, a timeout of the high-wait (bound 55) or of the
low-wait (bound 70) makes the loop fail with `timeout` (no frame is
produced). -/
theorem claim_C6 (env : Env HE) (parse : List Nat → ℚ × ℚ)
    (hsl : env.setLowErr = none) (hsh : env.setHighErr = none) :
    ((wait_for_level env .high 85 .notPresent 0).1 = .error .notPresent →
      (read env parse).1 = .error .notPresent) ∧
    (∀ e1, (wait_for_level env .high 85 .notPresent 0).1 = .ok e1 →
      (wait_for_level env .low 85 .notPresent
        (wait_for_level env .high 85 .notPresent 0).2.1).1 =
          .error .notPresent →
      (read env parse).1 = .error .notPresent) ∧
    (∀ e1 e2, (wait_for_level env .high 85 .notPresent 0).1 = .ok e1 →
      (wait_for_level env .low 85 .notPresent
        (wait_for_level env .high 85 .notPresent 0).2.1).1 = .ok e2 →
      (readBitsAux env 40 0
        (wait_for_level env .low 85 .notPresent
          (wait_for_level env .high 85 .notPresent 0).2.1).2.1
        [0, 0, 0, 0, 0]).1 = .error .timeout →
      (read env parse).1 = .error .timeout) ∧
    (∀ count bit n buf,
      (wait_for_level env .high 55 .timeout n).1 = .error .timeout →
      (readBitsAux env (count + 1) bit n buf).1 = .error .timeout) ∧
    (∀ count bit n buf h1,
      (wait_for_level env .high 55 .timeout n).1 = .ok h1 →
      (wait_for_level env .low 70 .timeout
        (wait_for_level env .high 55 .timeout n).2.1).1 = .error .timeout →
      (readBitsAux env (count + 1) bit n buf).1 = .error .timeout) := by
  refine ⟨fun h1 => ?_, fun e1 h1 h2 => ?_, fun e1 e2 h1 h2 h3 => ?_,
    fun count bit n buf hw => ?_, fun count bit n buf h1 hw1 hw2 => ?_⟩
  · simp [read, read_uninterruptible, hsl, hsh, h1]
  · simp [read, read_uninterruptible, hsl, hsh, h1, h2]
  · simp [read, read_uninterruptible, hsl, hsh, h1, h2, h3]
  · simp [readBitsAux, hw]
  · simp [readBitsAux, hw1, hw2]

/-- Environment in which the line never leaves the low level, so the
sensor never acknowledges. -/
def envLow : Env Unit := ⟨none, none, fun _ => .ok .low⟩

/-- Witness for C6: with a permanently-low line the first
acknowledgment wait (timeout 85) never sees high, and the read reports
`notPresent`. -/
theorem claim_C6_witness :
    (@read Unit envLow Dht11.parse_data).1 =
      .error .notPresent := by
  have h1 : @wait_for_level Unit envLow .high 85 .notPresent 0 =
      (.error .notPresent, 0 + 86, pollEvents envLow 0 86) :=
    waitForLevelAux_timeout envLow .high .notPresent 86 0 0
      (fun j hj => ⟨.low, rfl, by decide⟩)
  exact (@claim_C6 Unit envLow Dht11.parse_data rfl rfl).1
    (by rw [h1])

/-- Absence of interrupt-guard operations from a trace. -/
def guardFree (tr : List (Event HE)) : Prop :=
  ∀ ev ∈ tr, ev ≠ Event.disableInterrupts ∧ ev ≠ Event.enableInterrupts

/-- Boolean recogniser for the guard-disable event. -/
def isDisable : Event HE → Bool
  | .disableInterrupts => true
  | _ => false

/-- Boolean recogniser for the guard-enable event. -/
def isEnable : Event HE → Bool
  | .enableInterrupts => true
  | _ => false

lemma guardFree_append {l1 l2 : List (Event HE)}
    (h1 : guardFree l1) (h2 : guardFree l2) : guardFree (l1 ++ l2) := by
  intro ev hev
  rcases List.mem_append.mp hev with h | h
  exacts [h1 ev h, h2 ev h]

lemma guardFree_wait (env : Env HE) (level : PinState) (onT : DhtError HE) :
    ∀ fuel elapsed n, guardFree (waitForLevelAux env level onT elapsed fuel n).2.2 := by
  intro fuel
  induction fuel with
  | zero => intro elapsed n ev hev; simp [waitForLevelAux] at hev
  | succ fuel ih =>
    intro elapsed n ev hev
    simp only [waitForLevelAux] at hev
    cases hq : pinQuery env level n with
    | error e =>
      rw [hq] at hev
      simp at hev
      subst hev
      exact ⟨by simp, by simp⟩
    | ok b =>
      rw [hq] at hev
      cases b with
      | true =>
        simp at hev
        subst hev
        exact ⟨by simp, by simp⟩
      | false =>
        simp at hev
        rcases hev with h | h | h
        · subst h; exact ⟨by simp, by simp⟩
        · subst h; exact ⟨by simp, by simp⟩
        · exact ih (elapsed + 1) (n + 1) ev h

lemma guardFree_wait_for_level (env : Env HE) (level : PinState) (t : Nat)
    (onT : DhtError HE) (n : Nat) :
    guardFree (wait_for_level env level t onT n).2.2 :=
  guardFree_wait env level onT (t + 1) 0 n

lemma guardFree_readBits (env : Env HE) :
    ∀ count bit n buf, guardFree (readBitsAux env count bit n buf).2.2 := by
  intro count
  induction count with
  | zero => intro bit n buf ev hev; simp [readBitsAux] at hev
  | succ c ih =>
    intro bit n buf
    cases hw1 : (wait_for_level env .high 55 .timeout n).1 with
    | error e =>
      simp only [readBitsAux, hw1]
      exact guardFree_wait_for_level env .high 55 .timeout n
    | ok h1 =>
      cases hw2 : (wait_for_level env .low 70 .timeout
          (wait_for_level env .high 55 .timeout n).2.1).1 with
      | error e =>
        simp only [readBitsAux, hw1, hw2]
        exact guardFree_append (guardFree_wait_for_level env .high 55 .timeout n)
          (guardFree_wait_for_level env .low 70 .timeout _)
      | ok elapsed =>
        simp only [readBitsAux, hw1, hw2]
        exact guardFree_append
          (guardFree_append (guardFree_wait_for_level env .high 55 .timeout n)
            (guardFree_wait_for_level env .low 70 .timeout _))
          (ih _ _ _)

lemma guardFree_protocol_prelude :
    guardFree ([.setLow, .delayUs 3000, .setHigh, .delayUs 25] :
      List (Event HE)) := by
  intro ev hev
  simp at hev
  rcases hev with h | h | h | h <;> subst h <;> exact ⟨by simp, by simp⟩

lemma guardFree_read_uninterruptible (env : Env HE)
    (parse : List Nat → ℚ × ℚ) :
    guardFree (read_uninterruptible env parse).2 := by
  unfold read_uninterruptible
  cases hsl : env.setLowErr with
  | some e =>
    intro ev hev
    simp at hev
    subst hev
    exact ⟨by simp, by simp⟩
  | none =>
    cases hsh : env.setHighErr with
    | some e =>
      intro ev hev
      simp at hev
      rcases hev with h | h | h <;> subst h <;> exact ⟨by simp, by simp⟩
    | none =>
      cases ha1 : (wait_for_level env .high 85 .notPresent 0).1 with
      | error e =>
        simp only [ha1]
        exact guardFree_append guardFree_protocol_prelude
          (guardFree_wait_for_level env .high 85 .notPresent 0)
      | ok e1 =>
        cases ha2 : (wait_for_level env .low 85 .notPresent
            (wait_for_level env .high 85 .notPresent 0).2.1).1 with
        | error e =>
          simp only [ha1, ha2]
          exact guardFree_append
            (guardFree_append guardFree_protocol_prelude
              (guardFree_wait_for_level env .high 85 .notPresent 0))
            (guardFree_wait_for_level env .low 85 .notPresent _)
        | ok e2 =>
          cases hrb : (readBitsAux env 40 0
              (wait_for_level env .low 85 .notPresent
                (wait_for_level env .high 85 .notPresent 0).2.1).2.1
              [0, 0, 0, 0, 0]).1 with
          | error e =>
            simp only [ha1, ha2, hrb]
            exact guardFree_append
              (guardFree_append
                (guardFree_append guardFree_protocol_prelude
                  (guardFree_wait_for_level env .high 85 .notPresent 0))
                (guardFree_wait_for_level env .low 85 .notPresent _))
              (guardFree_readBits env 40 0 _ _)
          | ok fr =>
            simp only [ha1, ha2, hrb]
            exact guardFree_append
              (guardFree_append
                (guardFree_append guardFree_protocol_prelude
                  (guardFree_wait_for_level env .high 85 .notPresent 0))
                (guardFree_wait_for_level env .low 85 .notPresent _))
              (guardFree_readBits env 40 0 _ _)

lemma countP_eq_zero_of_guardFree {mid : List (Event HE)}
    (h : guardFree mid) :
    mid.countP isDisable = 0 ∧ mid.countP isEnable = 0 := by
  constructor <;> rw [List.countP_eq_zero] <;> intro ev hev
  · obtain ⟨hd, _⟩ := h ev hev
    cases ev <;> simp_all [isDisable]
  · obtain ⟨_, he⟩ := h ev hev
    cases ev <;> simp_all [isEnable]

/-- CLAIM C7: every call to `read` produces the guard-disable call
exactly once, before any protocol pin I/O, and the guard-enable call
exactly once, after the protocol run, on the success path and on every
failure path alike: for every environment the event trace of `read` is
`disableInterrupts`, then the protocol trace (which contains no guard
events), then `enableInterrupts`, and each guard event occurs exactly
once in the whole trace. -/
theorem claim_C7 (env : Env HE) (parse : List Nat → ℚ × ℚ) :
    ∃ mid, (read env parse).2 =
        .disableInterrupts :: (mid ++ [.enableInterrupts]) ∧
      guardFree mid ∧
      (read env parse).2.countP isDisable = 1 ∧
      (read env parse).2.countP isEnable = 1 := by
  refine ⟨(read_uninterruptible env parse).2, rfl,
    guardFree_read_uninterruptible env parse, ?_, ?_⟩ <;>
    obtain ⟨hd, he⟩ := countP_eq_zero_of_guardFree
      (guardFree_read_uninterruptible env parse)
  · show List.countP isDisable (.disableInterrupts ::
      ((read_uninterruptible env parse).2 ++ [.enableInterrupts])) = 1
    rw [List.countP_cons, List.countP_append, hd]
    simp [isDisable]
  · show List.countP isEnable (.disableInterrupts ::
      ((read_uninterruptible env parse).2 ++ [.enableInterrupts])) = 1
    rw [List.countP_cons, List.countP_append, he]
    simp [isEnable]

end DhtEmbedded
